import Mathlib

/-!
Shallow embedding of the PNG chunk-stream decoder of the
chrome-pnginfo-viewer repository (class `PNGInfoViewer`, methods
`parsePNGMetadata`, `processChunk`, `parseTextChunk`, `parseITextChunk`,
`parseZTextChunk`, `readString`).

Buffers are modelled as `List Nat` (one entry per byte).  `DataView`
reads are fallible (`Except PNGError`): an out-of-bounds read models the
JavaScript `RangeError` thrown by `DataView`, while the explicit
`throw new Error('Invalid PNG file')` of the signature check is modelled
by `PNGError.formatError`.  `ArrayBuffer.slice` / `Uint8Array.slice`
clamp to the buffer bounds and never fail, which `bufferSlice` mirrors.
The unbounded `while` loop of `parsePNGMetadata` is modelled by the
fuelled function `walkF` (fuel counts loop iterations; `none` means the
fuel ran out).  `parsePNGMetadata` supplies `buffer.length` fuel, which
is proved sufficient (`walkF` never returns `none` with that much fuel),
so the fuelled model computes exactly the loop's result.  `WalkRel` and
`DecodesRel` below are the fuel-free big-step relations of the loop and
of the whole decoder.
-/

/-- Error kinds distinguishable by a caller of `parsePNGMetadata`:
`formatError` is the explicit `new Error('Invalid PNG file')`;
`rangeError` is the `RangeError` a `DataView` accessor throws on an
out-of-bounds read. -/
inductive PNGError where
  | formatError
  | rangeError
  deriving DecidableEq, Repr

/-- The decompression capability of the runtime: given the compressed
bytes written into a `DecompressionStream('deflate')`, it returns the
bytes produced by the first read of the stream, or `none` when
decompression fails (the stream errors and the promise rejects).
`parseZTextChunk` receives `Option Inflate`: `none` models a runtime
where `typeof DecompressionStream === 'undefined'`. -/
def Inflate : Type := List Nat → Option (List Nat)

/-- One entry of `metadata.rawChunks`: `{type, length, offset}`. -/
structure RawChunk where
  type : String
  length : Nat
  offset : Nat
  deriving DecidableEq, Repr

/-- The `physicalDimensions` record set by the `pHYs` branch. -/
structure PhysicalDimensions where
  pixelsPerUnitX : Nat
  pixelsPerUnitY : Nat
  unit : String
  deriving DecidableEq, Repr

/-- The fields of `metadata.technicalInfo`; every field is absent until
its source chunk is processed. -/
structure TechnicalInfo where
  width : Option Nat := none
  height : Option Nat := none
  bitDepth : Option Nat := none
  colorType : Option Nat := none
  compression : Option Nat := none
  filter : Option Nat := none
  interlace : Option Nat := none
  physicalDimensions : Option PhysicalDimensions := none
  lastModified : Option String := none
  deriving DecidableEq, Repr

/-- The metadata record built by `parsePNGMetadata`.  `textChunks` is a
JavaScript object keyed by keyword; it is modelled as an association
list where assignment to an existing key updates it in place and
assignment to a new key appends it. -/
structure Metadata where
  textChunks : List (String × String)
  technicalInfo : TechnicalInfo
  rawChunks : List RawChunk
  deriving DecidableEq, Repr

/-- The fresh `metadata` object created at the top of `parsePNGMetadata`. -/
def emptyMetadata : Metadata :=
  { textChunks := [], technicalInfo := {}, rawChunks := [] }

/-- JavaScript object property assignment `obj[k] = v` for the
`textChunks` object: replace the value of an existing key in place,
otherwise append the new key. -/
def setText : List (String × String) → String → String → List (String × String)
  | [], k, v => [(k, v)]
  | (k', v') :: rest, k, v =>
    if k' = k then (k, v) :: rest else (k', v') :: setText rest k v

/-- JavaScript object property read `obj[k]` for the `textChunks` object. -/
def lookupText (l : List (String × String)) (k : String) : Option String :=
  (l.find? (fun p => p.1 = k)).map (fun p => p.2)

/-- `dataView.getUint8(i)`: the byte at offset `i`, or a `RangeError`
when the offset is outside the buffer. -/
def getUint8E (b : List Nat) (i : Nat) : Except PNGError Nat :=
  match b[i]? with
  | some v => .ok v
  | none => .error .rangeError

/-- `dataView.getUint16(i)`: big-endian 16-bit read. -/
def getUint16E (b : List Nat) (i : Nat) : Except PNGError Nat :=
  match getUint8E b i, getUint8E b (i + 1) with
  | .ok a, .ok c => .ok (a * 256 + c)
  | _, _ => .error .rangeError

/-- `dataView.getUint32(i)`: big-endian 32-bit read. -/
def getUint32E (b : List Nat) (i : Nat) : Except PNGError Nat :=
  match getUint8E b i, getUint8E b (i + 1), getUint8E b (i + 2),
      getUint8E b (i + 3) with
  | .ok a, .ok c, .ok d, .ok e =>
      .ok (a * 16777216 + c * 65536 + d * 256 + e)
  | _, _, _, _ => .error .rangeError

/-- `buffer.slice(s, e)` (also `Uint8Array.slice`): elements of the
half-open range `[s, e)`, both ends clamped to the buffer. -/
def bufferSlice (b : List Nat) (s e : Nat) : List Nat :=
  (b.take e).drop s

/-- `String.fromCharCode` of a byte value. -/
def fromCharCode (v : Nat) : Char := Char.ofNat v

/-- Latin-1 text decoding, `new TextDecoder('latin1').decode(bytes)`:
each byte becomes the character of the same code point. -/
def latin1Decode (bs : List Nat) : String :=
  String.mk (bs.map fromCharCode)

/-- The replacement character U+FFFD emitted by a non-fatal
`TextDecoder` for malformed input. -/
def replChar : Char := Char.ofNat 65533

/-- UTF-8 text decoding (`new TextDecoder('utf-8').decode(bytes)`,
non-fatal): standard UTF-8 byte sequences become their code points,
malformed bytes become replacement characters.  The fuel only bounds
the recursion (every step consumes at least one byte, so the byte count
used by `utf8Chars` is always enough). -/
def utf8CharsF : Nat → List Nat → List Char
  | 0, _ => []
  | _, [] => []
  | fuel + 1, x :: rest =>
    if x < 128 then fromCharCode x :: utf8CharsF fuel rest
    else if x < 194 then replChar :: utf8CharsF fuel rest
    else if x < 224 then
      match rest with
      | [] => [replChar]
      | x2 :: rest2 =>
        if 128 ≤ x2 ∧ x2 < 192 then
          fromCharCode ((x - 192) * 64 + (x2 - 128)) :: utf8CharsF fuel rest2
        else replChar :: utf8CharsF fuel rest
    else if x < 240 then
      match rest with
      | x2 :: x3 :: rest3 =>
        if 128 ≤ x2 ∧ x2 < 192 ∧ 128 ≤ x3 ∧ x3 < 192 then
          let cp := (x - 224) * 4096 + (x2 - 128) * 64 + (x3 - 128)
          if 2048 ≤ cp ∧ ¬ (55296 ≤ cp ∧ cp < 57344) then
            fromCharCode cp :: utf8CharsF fuel rest3
          else replChar :: utf8CharsF fuel rest3
        else replChar :: utf8CharsF fuel rest
      | _ => replChar :: utf8CharsF fuel rest
    else if x < 245 then
      match rest with
      | x2 :: x3 :: x4 :: rest4 =>
        if 128 ≤ x2 ∧ x2 < 192 ∧ 128 ≤ x3 ∧ x3 < 192 ∧ 128 ≤ x4 ∧ x4 < 192 then
          let cp := (x - 240) * 262144 + (x2 - 128) * 4096 +
            (x3 - 128) * 64 + (x4 - 128)
          if 65536 ≤ cp ∧ cp < 1114112 then
            fromCharCode cp :: utf8CharsF fuel rest4
          else replChar :: utf8CharsF fuel rest4
        else replChar :: utf8CharsF fuel rest
      | _ => replChar :: utf8CharsF fuel rest
    else replChar :: utf8CharsF fuel rest

/-- UTF-8 decoding of the whole byte list (the byte count is always
sufficient fuel, since every step of `utf8CharsF` consumes a byte). -/
def utf8Chars (bs : List Nat) : List Char :=
  utf8CharsF bs.length bs

/-- UTF-8 text decoding of a byte list into a string. -/
def utf8Decode (bs : List Nat) : String :=
  String.mk (utf8Chars bs)

/-- `bytes.indexOf(0, start)` restricted to the sublist already dropped:
first index (counting from `idx`) holding a zero. -/
def firstZeroAux : List Nat → Nat → Option Nat
  | [], _ => none
  | v :: rest, idx => if v = 0 then some idx else firstZeroAux rest (idx + 1)

/-- `bytes.indexOf(0, start)`: index of the first zero byte at position
`start` or later, `none` for the JavaScript result `-1`. -/
def firstZeroFrom (data : List Nat) (start : Nat) : Option Nat :=
  firstZeroAux (data.drop start) start

/-- `readString(dataView, offset, length)`: concatenates
`String.fromCharCode(getUint8(offset + i))` for `i < length`. -/
def readStringE (b : List Nat) : Nat → Nat → Except PNGError String
  | _, 0 => .ok ""
  | offset, len + 1 =>
    match getUint8E b offset with
    | .error e => .error e
    | .ok v =>
      match readStringE b (offset + 1) len with
      | .error e => .error e
      | .ok rest => .ok (String.mk [fromCharCode v] ++ rest)

/-- `n.toString().padStart(2, '0')` for the decimal rendering `s`. -/
def padStart2 (s : String) : String :=
  if 2 ≤ s.length then s
  else if s.length = 1 then "0" ++ s
  else "00" ++ s

/-- The template literal of the `tIME` branch:
`` `${year}-${month…}-${day…} ${hour…}:${minute…}:${second…}` `` where
every field except the year goes through `.toString().padStart(2,'0')`. -/
def timeFormat (year month day hour minute second : Nat) : String :=
  toString year ++ "-" ++ padStart2 (toString month) ++ "-" ++
    padStart2 (toString day) ++ " " ++ padStart2 (toString hour) ++ ":" ++
    padStart2 (toString minute) ++ ":" ++ padStart2 (toString second)

/-- `parseTextChunk(data)`: split at the first zero byte; keyword before
it and text after it, both Latin-1 decoded; `null` when there is no zero
byte.  Nothing in the body can throw, so the `try`/`catch` is inert. -/
def parseTextChunk (data : List Nat) : Option (String × String) :=
  match firstZeroFrom data 0 with
  | none => none
  | some nullIndex =>
    some (latin1Decode (bufferSlice data 0 nullIndex),
      latin1Decode (data.drop (nullIndex + 1)))

/-- `parseITextChunk(data)`: keyword up to the first zero byte, then one
compression-flag byte and one compression-method byte (read via
`bytes[offset++]` but never used), then the language tag up to the next
zero byte, then the translated keyword up to the next zero byte, then
the remaining bytes UTF-8 decoded; `null` whenever one of the three
`indexOf` searches fails. -/
def parseITextChunk (data : List Nat) : Option (String × String) :=
  match firstZeroFrom data 0 with
  | none => none
  | some keywordEnd =>
    let keyword := latin1Decode (bufferSlice data 0 keywordEnd)
    match firstZeroFrom data (keywordEnd + 3) with
    | none => none
    | some langTagEnd =>
      match firstZeroFrom data (langTagEnd + 1) with
      | none => none
      | some translatedKeywordEnd =>
        some (keyword, utf8Decode (data.drop (translatedKeywordEnd + 1)))

/-- `parseZTextChunk(data)`: keyword up to the first zero byte; the byte
after it is the compression method and `undefined !== 0`, so a missing
byte behaves like a nonzero method and yields `null`; with method `0`
the remaining bytes are fed to `DecompressionStream('deflate')` when the
runtime has one (`env = some inflate`; a decompression failure is caught
and yields `null`), otherwise the fallback placeholder text is used. -/
def parseZTextChunk (env : Option Inflate) (data : List Nat) :
    Option (String × String) :=
  match firstZeroFrom data 0 with
  | none => none
  | some nullIndex =>
    let keyword := latin1Decode (bufferSlice data 0 nullIndex)
    match data[nullIndex + 1]? with
    | some 0 =>
      let compressedData := data.drop (nullIndex + 2)
      match env with
      | some inflate =>
        match inflate compressedData with
        | some out => some (keyword, latin1Decode out)
        | none => none
      | none => some (keyword, "[Compressed data - decompression not supported]")
    | _ => none

/-- `processChunk(type, data, metadata)`: the `switch` on the chunk
type.  The `IHDR`, `pHYs` and `tIME` branches read through `DataView`
accessors which throw a `RangeError` when `data` is too short (for
`pHYs` and `tIME` a length guard prevents that); the three text branches
assign to `metadata.textChunks` when their parser returns non-null. -/
def processChunk (env : Option Inflate) (ctype : String) (data : List Nat)
    (m : Metadata) : Except PNGError Metadata :=
  if ctype = "IHDR" then
    match getUint32E data 0, getUint32E data 4, getUint8E data 8,
        getUint8E data 9, getUint8E data 10, getUint8E data 11,
        getUint8E data 12 with
    | .ok w, .ok h, .ok bd, .ok ct, .ok cm, .ok fm, .ok il =>
      .ok { m with technicalInfo :=
        { m.technicalInfo with
          width := some w, height := some h, bitDepth := some bd,
          colorType := some ct, compression := some cm,
          filter := some fm, interlace := some il } }
    | _, _, _, _, _, _, _ => .error .rangeError
  else if ctype = "tEXt" then
    match parseTextChunk data with
    | some td => .ok { m with textChunks := setText m.textChunks td.1 td.2 }
    | none => .ok m
  else if ctype = "iTXt" then
    match parseITextChunk data with
    | some td => .ok { m with textChunks := setText m.textChunks td.1 td.2 }
    | none => .ok m
  else if ctype = "zTXt" then
    match parseZTextChunk env data with
    | some td => .ok { m with textChunks := setText m.textChunks td.1 td.2 }
    | none => .ok m
  else if ctype = "pHYs" then
    if 9 ≤ data.length then
      match getUint32E data 0, getUint32E data 4, getUint8E data 8 with
      | .ok px, .ok py, .ok u =>
        .ok { m with technicalInfo := { m.technicalInfo with
          physicalDimensions := some
            { pixelsPerUnitX := px, pixelsPerUnitY := py,
              unit := if u = 1 then "meters" else "unknown" } } }
      | _, _, _ => .error .rangeError
    else .ok m
  else if ctype = "tIME" then
    if 7 ≤ data.length then
      match getUint16E data 0, getUint8E data 2, getUint8E data 3,
          getUint8E data 4, getUint8E data 5, getUint8E data 6 with
      | .ok year, .ok month, .ok day, .ok hour, .ok minute, .ok second =>
        .ok { m with technicalInfo := { m.technicalInfo with
          lastModified := some (timeFormat year month day hour minute second) } }
      | _, _, _, _, _, _ => .error .rangeError
    else .ok m
  else .ok m

/-- `metadata.rawChunks.push({type, length, offset})`. -/
def pushChunk (m : Metadata) (t : String) (len offset : Nat) : Metadata :=
  { m with rawChunks := m.rawChunks ++ [RawChunk.mk t len offset] }

/-- Outcome of one test-and-iteration of the
`while (offset < buffer.byteLength - 8)` loop: either the loop is over
with result `r` (condition false, an error thrown, or the `IEND`
break), or it continues at the next offset with updated metadata. -/
inductive StepResult where
  | halt (r : Except PNGError Metadata)
  | goOn (offset : Nat) (m : Metadata)
  deriving Repr

/-- One iteration of the chunk-walk loop of `parsePNGMetadata`: test the
loop condition, read the chunk length, the 4-character chunk type, the
payload slice and the trailing CRC word (`const crc = dataView.getUint32
(offset + 8 + chunkLength)`, which throws on a truncated chunk), record
the raw-chunk descriptor, dispatch to `processChunk`, then either break
on `IEND` or advance the offset by `12 + chunkLength`. -/
def walkStep (env : Option Inflate) (b : List Nat) (offset : Nat)
    (m : Metadata) : StepResult :=
  if offset + 8 < b.length then
    match getUint32E b offset with
    | .error e => .halt (.error e)
    | .ok chunkLength =>
      match readStringE b (offset + 4) 4 with
      | .error e => .halt (.error e)
      | .ok chunkType =>
        let chunkData := bufferSlice b (offset + 8) (offset + 8 + chunkLength)
        match getUint32E b (offset + 8 + chunkLength) with
        | .error e => .halt (.error e)
        | .ok _crc =>
          match processChunk env chunkType chunkData
              (pushChunk m chunkType chunkLength offset) with
          | .error e => .halt (.error e)
          | .ok m2 =>
            if chunkType = "IEND" then .halt (.ok m2)
            else .goOn (offset + 12 + chunkLength) m2
  else .halt (.ok m)

/-- The chunk-walk loop of `parsePNGMetadata`: iterate `walkStep`, with
fuel counting the remaining permitted iterations (`none` = fuel
exhausted; `walkF_fuel_sufficient` below shows the fuel passed by
`parsePNGMetadata` is never exhausted, because every continuing
iteration advances the offset by at least 12). -/
def walkF (env : Option Inflate) (b : List Nat) :
    Nat → Nat → Metadata → Option (Except PNGError Metadata)
  | fuel, offset, m =>
    match walkStep env b offset m with
    | .halt r => some r
    | .goOn offset2 m2 =>
      match fuel with
      | 0 => none
      | fuel + 1 => walkF env b fuel offset2 m2

/-- The expected signature bytes `[137, 80, 78, 71, 13, 10, 26, 10]`. -/
def pngSignature : List Nat := [137, 80, 78, 71, 13, 10, 26, 10]

/-- The signature loop `for (let i = 0; i < 8; i++)`, with `k` the
remaining iterations (`k + i = 8` at every call): each step reads byte
`i` (a missing byte is a `RangeError`) and compares it with the
signature, throwing `Invalid PNG file` on mismatch. -/
def checkSigLoop (b : List Nat) : Nat → Nat → Except PNGError Unit
  | 0, _ => .ok ()
  | k + 1, i =>
    match b[i]? with
    | none => .error .rangeError
    | some v =>
      if v = pngSignature.getD i 0 then checkSigLoop b k (i + 1)
      else .error .formatError

/-- The PNG signature check at the top of `parsePNGMetadata`. -/
def checkSignature (b : List Nat) : Except PNGError Unit :=
  checkSigLoop b 8 0

/-- `parsePNGMetadata(buffer)`: check the signature, then walk the
chunk stream from offset 8 with a fresh metadata record.  The walk is
run with `buffer.length` fuel, which `walkF_fuel_sufficient` proves is
never exhausted, so the `getD` default is unreachable. -/
def parsePNGMetadata (env : Option Inflate) (buffer : List Nat) :
    Except PNGError Metadata :=
  match checkSignature buffer with
  | .error e => .error e
  | .ok _ => (walkF env buffer buffer.length 8 emptyMetadata).getD (.error .rangeError)

/-- Fuel-free big-step operational semantics of the chunk-walk loop:
`WalkRel env b offset m r` holds when the `while` loop of
`parsePNGMetadata`, entered at `offset` with accumulated metadata `m`,
finishes with result `r` (either the final metadata or the error it
throws): finitely many continuing iterations followed by a halting
one. -/
inductive WalkRel (env : Option Inflate) (b : List Nat) :
    Nat → Metadata → Except PNGError Metadata → Prop where
  | halt (offset m r) : walkStep env b offset m = .halt r →
      WalkRel env b offset m r
  | step (offset m offset2 m2 r) :
      walkStep env b offset m = .goOn offset2 m2 →
      WalkRel env b offset2 m2 r → WalkRel env b offset m r

/-- Fuel-free big-step semantics of `parsePNGMetadata` as a whole: the
signature check either throws, or the walk relation produces the
result. -/
inductive DecodesRel (env : Option Inflate) (buffer : List Nat) :
    Except PNGError Metadata → Prop where
  | sigErr (e) : checkSignature buffer = .error e →
      DecodesRel env buffer (.error e)
  | walkDone (r) : checkSignature buffer = .ok () →
      WalkRel env buffer 8 emptyMetadata r → DecodesRel env buffer r

/-- The minimal valid stream of the spec: signature, `IHDR` with the
13-byte payload width=100, height=50, bitDepth=8, colorType=2,
compression=0, filter=0, interlace=0, and an empty `IEND`. -/
def minimalBuf : List Nat :=
  pngSignature ++
  ([0, 0, 0, 13] ++ [73, 72, 68, 82] ++
    [0, 0, 0, 100, 0, 0, 0, 50, 8, 2, 0, 0, 0] ++ [0, 0, 0, 0]) ++
  ([0, 0, 0, 0] ++ [73, 69, 78, 68] ++ [0, 0, 0, 0])

/-- The decode result of `minimalBuf`. -/
def minimalMeta : Metadata :=
  { textChunks := [],
    technicalInfo :=
      { width := some 100, height := some 50, bitDepth := some 8,
        colorType := some 2, compression := some 0, filter := some 0,
        interlace := some 0, physicalDimensions := none, lastModified := none },
    rawChunks := [RawChunk.mk "IHDR" 13 8, RawChunk.mk "IEND" 0 33] }

/-- A stream whose only chunk declares a 10-byte payload but is cut off
after one payload byte: the loop condition `8 < 17 - 8` holds, so the
walk enters the chunk and the CRC read at offset 26 is out of range. -/
def truncatedBuf : List Nat :=
  pngSignature ++ [0, 0, 0, 10, 65, 66, 67, 68, 0]

/-- Signature, a `tEXt` chunk with payload `"Author\0Alice"`, a `tEXt`
chunk with payload `"KKK"` (no zero byte), and an empty `IEND`. -/
def textDemoBuf : List Nat :=
  pngSignature ++
  ([0, 0, 0, 12] ++ [116, 69, 88, 116] ++
    ([65, 117, 116, 104, 111, 114] ++ [0] ++ [65, 108, 105, 99, 101]) ++
    [0, 0, 0, 0]) ++
  ([0, 0, 0, 3] ++ [116, 69, 88, 116] ++ [75, 75, 75] ++ [0, 0, 0, 0]) ++
  ([0, 0, 0, 0] ++ [73, 69, 78, 68] ++ [0, 0, 0, 0])

/-- The decode result of `textDemoBuf`: one text entry, three raw
chunks (the zero-less `tEXt` chunk is recorded but contributes no
entry). -/
def textDemoMeta : Metadata :=
  { textChunks := [("Author", "Alice")],
    technicalInfo := {},
    rawChunks := [RawChunk.mk "tEXt" 12 8, RawChunk.mk "tEXt" 3 32,
      RawChunk.mk "IEND" 0 47] }

/-- Signature, a `tIME` chunk with year 5 (a year whose decimal
rendering has fewer than four digits), month 1, day 2, hour 3,
minute 4, second 6, and an empty `IEND`. -/
def timeCexBuf : List Nat :=
  pngSignature ++
  ([0, 0, 0, 7] ++ [116, 73, 77, 69] ++ [0, 5, 1, 2, 3, 4, 6] ++ [0, 0, 0, 0]) ++
  ([0, 0, 0, 0] ++ [73, 69, 78, 68] ++ [0, 0, 0, 0])

/-! ### Basic lemmas about the `DataView` reads -/

theorem getUint8E_ok_iff {b : List Nat} {i v : Nat} :
    getUint8E b i = .ok v ↔ b[i]? = some v := by
  unfold getUint8E
  cases h : b[i]? <;> simp

theorem getUint8E_oob {b : List Nat} {i : Nat} (h : b.length ≤ i) :
    getUint8E b i = .error .rangeError := by
  unfold getUint8E
  rw [List.getElem?_eq_none h]

theorem getUint8E_inbounds {b : List Nat} {i : Nat} (h : i < b.length) :
    getUint8E b i = .ok (b.getD i 0) := by
  unfold getUint8E
  rw [List.getElem?_eq_getElem h]
  simp [List.getD_eq_getElem?_getD, List.getElem?_eq_getElem h]

theorem getUint8E_ok_lt {b : List Nat} {i v : Nat}
    (h : getUint8E b i = .ok v) : i < b.length := by
  have h2 := getUint8E_ok_iff.mp h
  by_contra hc
  rw [List.getElem?_eq_none (by omega)] at h2
  exact Option.noConfusion h2

theorem getUint8E_error_eq {b : List Nat} {i : Nat} {e : PNGError}
    (h : getUint8E b i = .error e) : e = .rangeError := by
  unfold getUint8E at h
  cases h2 : b[i]? <;> rw [h2] at h <;> simp_all

theorem getUint8E_append {b ex : List Nat} {i : Nat} (h : i < b.length) :
    getUint8E (b ++ ex) i = getUint8E b i := by
  unfold getUint8E
  rw [List.getElem?_append_left h]

theorem getUint32E_ok_bounds {b : List Nat} {i L : Nat}
    (h : getUint32E b i = .ok L) : i + 4 ≤ b.length := by
  unfold getUint32E at h
  cases h1 : getUint8E b i <;> rw [h1] at h <;>
    cases h2 : getUint8E b (i + 1) <;> rw [h2] at h <;>
    cases h3 : getUint8E b (i + 2) <;> rw [h3] at h <;>
    cases h4 : getUint8E b (i + 3) <;> rw [h4] at h <;> simp_all
  have := getUint8E_ok_lt h4
  omega

theorem getUint32E_oob {b : List Nat} {i : Nat} (h : b.length < i + 4) :
    getUint32E b i = .error .rangeError := by
  unfold getUint32E
  rw [getUint8E_oob (show b.length ≤ i + 3 by omega)]
  cases getUint8E b i <;> cases getUint8E b (i + 1) <;>
    cases getUint8E b (i + 2) <;> rfl

theorem getUint32E_inbounds {b : List Nat} {i : Nat} (h : i + 4 ≤ b.length) :
    getUint32E b i = .ok (b.getD i 0 * 16777216 + b.getD (i + 1) 0 * 65536 +
      b.getD (i + 2) 0 * 256 + b.getD (i + 3) 0) := by
  unfold getUint32E
  rw [getUint8E_inbounds (show i < b.length by omega),
    getUint8E_inbounds (show i + 1 < b.length by omega),
    getUint8E_inbounds (show i + 2 < b.length by omega),
    getUint8E_inbounds (show i + 3 < b.length by omega)]

theorem getUint32E_error_eq {b : List Nat} {i : Nat} {e : PNGError}
    (h : getUint32E b i = .error e) : e = .rangeError := by
  unfold getUint32E at h
  cases h1 : getUint8E b i <;> rw [h1] at h <;>
    cases h2 : getUint8E b (i + 1) <;> rw [h2] at h <;>
    cases h3 : getUint8E b (i + 2) <;> rw [h3] at h <;>
    cases h4 : getUint8E b (i + 3) <;> rw [h4] at h <;> simp_all

theorem getUint32E_append {b ex : List Nat} {i : Nat} (h : i + 4 ≤ b.length) :
    getUint32E (b ++ ex) i = getUint32E b i := by
  unfold getUint32E
  rw [getUint8E_append (show i < b.length by omega),
    getUint8E_append (show i + 1 < b.length by omega),
    getUint8E_append (show i + 2 < b.length by omega),
    getUint8E_append (show i + 3 < b.length by omega)]

theorem getUint16E_inbounds {b : List Nat} {i : Nat} (h : i + 2 ≤ b.length) :
    getUint16E b i = .ok (b.getD i 0 * 256 + b.getD (i + 1) 0) := by
  unfold getUint16E
  rw [getUint8E_inbounds (show i < b.length by omega),
    getUint8E_inbounds (show i + 1 < b.length by omega)]

theorem getUint16E_error_eq {b : List Nat} {i : Nat} {e : PNGError}
    (h : getUint16E b i = .error e) : e = .rangeError := by
  unfold getUint16E at h
  cases h1 : getUint8E b i <;> rw [h1] at h <;>
    cases h2 : getUint8E b (i + 1) <;> rw [h2] at h <;> simp_all

theorem readStringE_isOk {b : List Nat} (len : Nat) :
    ∀ offset, offset + len ≤ b.length →
      ∃ s, readStringE b offset len = .ok s := by
  induction len with
  | zero => exact fun offset _ => ⟨"", rfl⟩
  | succ n ih =>
    intro offset h
    obtain ⟨s, hs⟩ := ih (offset + 1) (by omega)
    refine ⟨String.mk [fromCharCode (b.getD offset 0)] ++ s, ?_⟩
    unfold readStringE
    rw [getUint8E_inbounds (show offset < b.length by omega), hs]

theorem readStringE_append {b ex : List Nat} (len : Nat) :
    ∀ offset, offset + len ≤ b.length →
      readStringE (b ++ ex) offset len = readStringE b offset len := by
  induction len with
  | zero => intro offset _; rfl
  | succ n ih =>
    intro offset h
    unfold readStringE
    rw [getUint8E_append (show offset < b.length by omega),
      ih (offset + 1) (by omega)]

theorem readStringE_error_eq {b : List Nat} (len : Nat) :
    ∀ offset e, readStringE b offset len = .error e → e = .rangeError := by
  induction len with
  | zero => intro offset e h; exact absurd h (by simp [readStringE])
  | succ n ih =>
    intro offset e h
    unfold readStringE at h
    cases h1 : getUint8E b offset <;> rw [h1] at h
    · simp only [Except.error.injEq] at h
      exact h ▸ getUint8E_error_eq h1
    · cases h2 : readStringE b (offset + 1) n <;> rw [h2] at h <;> simp_all
      exact ih (offset + 1) _ h2

theorem bufferSlice_append {b ex : List Nat} {s e : Nat} (h : e ≤ b.length) :
    bufferSlice (b ++ ex) s e = bufferSlice b s e := by
  unfold bufferSlice
  rw [List.take_append_of_le_length h]

/-! ### Lemmas about `processChunk` -/

theorem processChunk_tEXt (env : Option Inflate) (data : List Nat)
    (m : Metadata) :
    processChunk env "tEXt" data m =
      .ok (match parseTextChunk data with
        | some td => { m with textChunks := setText m.textChunks td.1 td.2 }
        | none => m) := by
  unfold processChunk
  simp only [reduceIte]
  cases parseTextChunk data <;> rfl

theorem processChunk_iTXt (env : Option Inflate) (data : List Nat)
    (m : Metadata) :
    processChunk env "iTXt" data m =
      .ok (match parseITextChunk data with
        | some td => { m with textChunks := setText m.textChunks td.1 td.2 }
        | none => m) := by
  unfold processChunk
  simp only [reduceIte]
  cases parseITextChunk data <;> rfl

theorem processChunk_zTXt (env : Option Inflate) (data : List Nat)
    (m : Metadata) :
    processChunk env "zTXt" data m =
      .ok (match parseZTextChunk env data with
        | some td => { m with textChunks := setText m.textChunks td.1 td.2 }
        | none => m) := by
  unfold processChunk
  simp only [reduceIte]
  cases parseZTextChunk env data <;> rfl

theorem processChunk_tIME_long (env : Option Inflate) {data : List Nat}
    (m : Metadata) (h : 7 ≤ data.length) :
    processChunk env "tIME" data m =
      .ok { m with technicalInfo := { m.technicalInfo with
        lastModified := some (timeFormat
          (data.getD 0 0 * 256 + data.getD 1 0) (data.getD 2 0)
          (data.getD 3 0) (data.getD 4 0) (data.getD 5 0) (data.getD 6 0)) } } := by
  unfold processChunk
  simp only [String.reduceEq, reduceIte]
  rw [if_pos h, getUint16E_inbounds (by omega),
    getUint8E_inbounds (show 2 < data.length by omega),
    getUint8E_inbounds (show 3 < data.length by omega),
    getUint8E_inbounds (show 4 < data.length by omega),
    getUint8E_inbounds (show 5 < data.length by omega),
    getUint8E_inbounds (show 6 < data.length by omega)]

theorem processChunk_tIME_short (env : Option Inflate) {data : List Nat}
    (m : Metadata) (h : data.length < 7) :
    processChunk env "tIME" data m = .ok m := by
  unfold processChunk
  simp only [String.reduceEq, reduceIte]
  rw [if_neg (by omega)]

theorem processChunk_error_eq {env : Option Inflate} {t : String}
    {d : List Nat} {m : Metadata} {e : PNGError}
    (h : processChunk env t d m = .error e) : e = .rangeError := by
  unfold processChunk at h
  split_ifs at h <;> (try split at h) <;> simp_all

theorem processChunk_rawChunks {env : Option Inflate} {t : String}
    {d : List Nat} {m m' : Metadata}
    (h : processChunk env t d m = .ok m') : m'.rawChunks = m.rawChunks := by
  unfold processChunk at h
  split_ifs at h <;> (try split at h) <;> simp_all <;>
    (rw [show m' = _ from h.symm])

/-! ### Lemmas about the signature loop -/

theorem checkSigLoop_ok {b : List Nat} (k : Nat) :
    ∀ i, (∀ j, j < k → b[i + j]? = some (pngSignature.getD (i + j) 0)) →
      checkSigLoop b k i = .ok () := by
  induction k with
  | zero => intro i _; rfl
  | succ n ih =>
    intro i h
    have h0 := h 0 (by omega)
    simp only [Nat.add_zero] at h0
    unfold checkSigLoop
    simp only [h0, if_pos rfl]
    exact ih (i + 1) (fun j hj => by
      have := h (j + 1) (by omega)
      rwa [show i + (j + 1) = i + 1 + j by omega] at this)

theorem checkSigLoop_format {b : List Nat} (k : Nat) :
    ∀ i, (∃ j, j < k ∧ i + j < b.length ∧
        b.getD (i + j) 0 ≠ pngSignature.getD (i + j) 0) →
      checkSigLoop b k i = .error .formatError := by
  induction k with
  | zero => rintro i ⟨j, hj, _, _⟩; omega
  | succ n ih =>
    rintro i ⟨j, hj, hlt, hne⟩
    have hi : i < b.length := by omega
    unfold checkSigLoop
    simp only [List.getElem?_eq_getElem hi]
    by_cases heq : b[i] = pngSignature.getD i 0
    · simp only [if_pos heq]
      have hj0 : j ≠ 0 := by
        rintro rfl
        apply hne
        simpa [List.getD_eq_getElem?_getD, List.getElem?_eq_getElem hi] using heq
      exact ih (i + 1) ⟨j - 1, by omega, by omega, by
        rw [show i + 1 + (j - 1) = i + j by omega]; exact hne⟩
    · simp only [if_neg heq]

theorem checkSigLoop_range {b : List Nat} (k : Nat) :
    ∀ i, i ≤ b.length → b.length < i + k →
      (∀ j, i + j < b.length → b.getD (i + j) 0 = pngSignature.getD (i + j) 0) →
      checkSigLoop b k i = .error .rangeError := by
  induction k with
  | zero => intro i h1 h2 _; omega
  | succ n ih =>
    intro i h1 h2 h3
    unfold checkSigLoop
    by_cases hi : i < b.length
    · have heq : b[i] = pngSignature.getD i 0 := by
        have := h3 0 (by omega)
        simpa [List.getD_eq_getElem?_getD, List.getElem?_eq_getElem hi] using this
      simp only [List.getElem?_eq_getElem hi, if_pos heq]
      exact ih (i + 1) (by omega) (by omega) (fun j hj => by
        have := h3 (j + 1) (by omega)
        rwa [show i + (j + 1) = i + 1 + j by omega] at this)
    · simp only [List.getElem?_eq_none (show b.length ≤ i by omega)]

theorem checkSigLoop_append {b ex : List Nat} (k : Nat) :
    ∀ i, checkSigLoop b k i = .ok () → checkSigLoop (b ++ ex) k i = .ok () := by
  induction k with
  | zero => intro i _; rfl
  | succ n ih =>
    intro i h
    unfold checkSigLoop at h ⊢
    cases hb : b[i]? with
    | none =>
      simp only [hb] at h
      exact Except.noConfusion h
    | some v =>
      have hi : i < b.length := by
        by_contra hc
        rw [List.getElem?_eq_none (by omega)] at hb
        exact Option.noConfusion hb
      simp only [hb] at h
      simp only [List.getElem?_append_left hi, hb]
      by_cases hv : v = pngSignature.getD i 0
      · simp only [if_pos hv] at h ⊢
        exact ih _ h
      · simp only [if_neg hv] at h
        exact Except.noConfusion h

/-! ### Lemmas about the zero-byte search -/

theorem firstZeroAux_not_mem :
    ∀ (xs : List Nat), 0 ∉ xs → ∀ idx, firstZeroAux xs idx = none := by
  intro xs
  induction xs with
  | nil => intro _ idx; rfl
  | cons v tail ih =>
    intro h idx
    simp only [List.mem_cons, not_or] at h
    unfold firstZeroAux
    rw [if_neg (fun e => h.1 e.symm)]
    exact ih h.2 (idx + 1)

theorem firstZeroAux_append (rest : List Nat) :
    ∀ (xs : List Nat) (idx : Nat), 0 ∉ xs →
      firstZeroAux (xs ++ 0 :: rest) idx = some (idx + xs.length) := by
  intro xs
  induction xs with
  | nil => intro idx _; simp [firstZeroAux]
  | cons v tail ih =>
    intro idx h
    simp only [List.mem_cons, not_or] at h
    simp only [List.cons_append]
    unfold firstZeroAux
    rw [if_neg (fun e => h.1 e.symm)]
    rw [ih (idx + 1) h.2]
    congr 1
    simp only [List.length_cons]
    omega

/-! ### Lemmas about one loop iteration and the fuelled walk -/

theorem walkStep_eq_of {env : Option Inflate} {b : List Nat} {offset L : Nat}
    {t : String} {c : Nat} {m m2 : Metadata}
    (hc : offset + 8 < b.length)
    (h1 : getUint32E b offset = .ok L)
    (h2 : readStringE b (offset + 4) 4 = .ok t)
    (h3 : getUint32E b (offset + 8 + L) = .ok c)
    (h4 : processChunk env t (bufferSlice b (offset + 8) (offset + 8 + L))
      (pushChunk m t L offset) = .ok m2) :
    walkStep env b offset m =
      if t = "IEND" then .halt (.ok m2) else .goOn (offset + 12 + L) m2 := by
  unfold walkStep
  simp only [if_pos hc, h1, h2, h3, h4]

theorem walkStep_goOn_inv {env : Option Inflate} {b : List Nat}
    {offset : Nat} {m : Metadata} {offset2 : Nat} {m2 : Metadata}
    (h : walkStep env b offset m = .goOn offset2 m2) :
    offset + 8 < b.length ∧
    ∃ L t, getUint32E b offset = .ok L ∧
      readStringE b (offset + 4) 4 = .ok t ∧
      (∃ c, getUint32E b (offset + 8 + L) = .ok c) ∧
      processChunk env t (bufferSlice b (offset + 8) (offset + 8 + L))
        (pushChunk m t L offset) = .ok m2 ∧
      t ≠ "IEND" ∧ offset2 = offset + 12 + L := by
  unfold walkStep at h
  by_cases hc : offset + 8 < b.length
  · simp only [if_pos hc] at h
    cases h1 : getUint32E b offset with
    | error e =>
      simp only [h1] at h
      exact StepResult.noConfusion h
    | ok L =>
      simp only [h1] at h
      cases h2 : readStringE b (offset + 4) 4 with
      | error e =>
        simp only [h2] at h
        exact StepResult.noConfusion h
      | ok t =>
        simp only [h2] at h
        cases h3 : getUint32E b (offset + 8 + L) with
        | error e =>
          simp only [h3] at h
          exact StepResult.noConfusion h
        | ok c =>
          simp only [h3] at h
          cases h4 : processChunk env t
              (bufferSlice b (offset + 8) (offset + 8 + L))
              (pushChunk m t L offset) with
          | error e =>
            simp only [h4] at h
            exact StepResult.noConfusion h
          | ok m2' =>
            simp only [h4] at h
            by_cases ht : t = "IEND"
            · simp only [if_pos ht] at h
              exact StepResult.noConfusion h
            · simp only [if_neg ht] at h
              obtain ⟨ho, hm⟩ := StepResult.goOn.inj h
              exact ⟨hc, L, t, rfl, rfl, ⟨c, h3⟩, hm ▸ h4, ht, ho.symm⟩
  · simp only [if_neg hc] at h
    exact StepResult.noConfusion h

theorem walkStep_halt_ok_inv {env : Option Inflate} {b : List Nat}
    {offset : Nat} {m0 m : Metadata}
    (h : walkStep env b offset m0 = .halt (.ok m)) :
    (¬ offset + 8 < b.length ∧ m = m0) ∨
    (offset + 8 < b.length ∧
      ∃ L c, getUint32E b offset = .ok L ∧
        readStringE b (offset + 4) 4 = .ok "IEND" ∧
        getUint32E b (offset + 8 + L) = .ok c ∧
        processChunk env "IEND" (bufferSlice b (offset + 8) (offset + 8 + L))
          (pushChunk m0 "IEND" L offset) = .ok m) := by
  unfold walkStep at h
  by_cases hc : offset + 8 < b.length
  · simp only [if_pos hc] at h
    cases h1 : getUint32E b offset with
    | error e =>
      simp only [h1] at h
      exact absurd (StepResult.halt.inj h) (by simp)
    | ok L =>
      simp only [h1] at h
      cases h2 : readStringE b (offset + 4) 4 with
      | error e =>
        simp only [h2] at h
        exact absurd (StepResult.halt.inj h) (by simp)
      | ok t =>
        simp only [h2] at h
        cases h3 : getUint32E b (offset + 8 + L) with
        | error e =>
          simp only [h3] at h
          exact absurd (StepResult.halt.inj h) (by simp)
        | ok c =>
          simp only [h3] at h
          cases h4 : processChunk env t
              (bufferSlice b (offset + 8) (offset + 8 + L))
              (pushChunk m0 t L offset) with
          | error e =>
            simp only [h4] at h
            exact absurd (StepResult.halt.inj h) (by simp)
          | ok m2' =>
            simp only [h4] at h
            by_cases ht : t = "IEND"
            · simp only [if_pos ht] at h
              have hm : m2' = m := Except.ok.inj (StepResult.halt.inj h)
              subst ht
              exact Or.inr ⟨hc, L, c, rfl, rfl, h3, hm ▸ h4⟩
            · simp only [if_neg ht] at h
              exact StepResult.noConfusion h
  · simp only [if_neg hc] at h
    exact Or.inl ⟨hc, (Except.ok.inj (StepResult.halt.inj h)).symm⟩

theorem walkStep_halt_error {env : Option Inflate} {b : List Nat}
    {offset : Nat} {m : Metadata} {e : PNGError}
    (h : walkStep env b offset m = .halt (.error e)) : e = .rangeError := by
  unfold walkStep at h
  by_cases hc : offset + 8 < b.length
  · simp only [if_pos hc] at h
    cases h1 : getUint32E b offset with
    | error e1 =>
      simp only [h1] at h
      exact (Except.error.inj (StepResult.halt.inj h)).symm ▸ getUint32E_error_eq h1
    | ok L =>
      simp only [h1] at h
      cases h2 : readStringE b (offset + 4) 4 with
      | error e2 =>
        simp only [h2] at h
        exact (Except.error.inj (StepResult.halt.inj h)).symm ▸
          readStringE_error_eq 4 (offset + 4) e2 h2
      | ok t =>
        simp only [h2] at h
        cases h3 : getUint32E b (offset + 8 + L) with
        | error e3 =>
          simp only [h3] at h
          exact (Except.error.inj (StepResult.halt.inj h)).symm ▸ getUint32E_error_eq h3
        | ok c =>
          simp only [h3] at h
          cases h4 : processChunk env t
              (bufferSlice b (offset + 8) (offset + 8 + L))
              (pushChunk m t L offset) with
          | error e4 =>
            simp only [h4] at h
            exact (Except.error.inj (StepResult.halt.inj h)).symm ▸ processChunk_error_eq h4
          | ok m2 =>
            simp only [h4] at h
            by_cases ht : t = "IEND"
            · simp only [if_pos ht] at h
              exact absurd (StepResult.halt.inj h) (by simp)
            · simp only [if_neg ht] at h
              exact StepResult.noConfusion h
  · simp only [if_neg hc] at h
    exact absurd (StepResult.halt.inj h) (by simp)

theorem walkF_halt {env : Option Inflate} {b : List Nat} {offset : Nat}
    {m : Metadata} {r : Except PNGError Metadata} (fuel : Nat)
    (h : walkStep env b offset m = .halt r) :
    walkF env b fuel offset m = some r := by
  unfold walkF
  simp only [h]

theorem walkF_goOn {env : Option Inflate} {b : List Nat} {offset : Nat}
    {m : Metadata} {offset2 : Nat} {m2 : Metadata} (fuel : Nat)
    (h : walkStep env b offset m = .goOn offset2 m2) :
    walkF env b (fuel + 1) offset m = walkF env b fuel offset2 m2 := by
  conv_lhs => unfold walkF
  simp only [h]

theorem walkF_goOn_zero {env : Option Inflate} {b : List Nat} {offset : Nat}
    {m : Metadata} {offset2 : Nat} {m2 : Metadata}
    (h : walkStep env b offset m = .goOn offset2 m2) :
    walkF env b 0 offset m = none := by
  unfold walkF
  simp only [h]

theorem walkF_mono {env : Option Inflate} {b : List Nat} (fuel : Nat) :
    ∀ fuel2 offset m r, walkF env b fuel offset m = some r → fuel ≤ fuel2 →
      walkF env b fuel2 offset m = some r := by
  induction fuel with
  | zero =>
    intro fuel2 offset m r h _
    cases hs : walkStep env b offset m with
    | halt r2 =>
      rw [walkF_halt 0 hs] at h
      rw [walkF_halt fuel2 hs]
      exact h
    | goOn offset2 m2 =>
      rw [walkF_goOn_zero hs] at h
      exact Option.noConfusion h
  | succ n ih =>
    intro fuel2 offset m r h hle
    cases hs : walkStep env b offset m with
    | halt r2 =>
      rw [walkF_halt (n + 1) hs] at h
      rw [walkF_halt fuel2 hs]
      exact h
    | goOn offset2 m2 =>
      rw [walkF_goOn n hs] at h
      match fuel2, hle with
      | fuel2 + 1, _ =>
        rw [walkF_goOn fuel2 hs]
        exact ih fuel2 offset2 m2 r h (by omega)

theorem walkF_fuel_sufficient {env : Option Inflate} {b : List Nat}
    (fuel : Nat) :
    ∀ offset m, b.length ≤ offset + 8 + 12 * fuel →
      walkF env b fuel offset m ≠ none := by
  induction fuel with
  | zero =>
    intro offset m hb
    cases hs : walkStep env b offset m with
    | halt r => rw [walkF_halt 0 hs]; exact Option.noConfusion
    | goOn offset2 m2 =>
      have := (walkStep_goOn_inv hs).1
      omega
  | succ n ih =>
    intro offset m hb
    cases hs : walkStep env b offset m with
    | halt r => rw [walkF_halt (n + 1) hs]; exact Option.noConfusion
    | goOn offset2 m2 =>
      rw [walkF_goOn n hs]
      obtain ⟨hc, L, t, _, _, _, _, _, ho⟩ := walkStep_goOn_inv hs
      exact ih offset2 m2 (by omega)

theorem walkF_ne_formatError {env : Option Inflate} {b : List Nat}
    (fuel : Nat) :
    ∀ offset m, walkF env b fuel offset m ≠ some (.error .formatError) := by
  induction fuel with
  | zero =>
    intro offset m h
    cases hs : walkStep env b offset m with
    | halt r =>
      rw [walkF_halt 0 hs] at h
      have hr := Option.some.inj h
      rw [hr] at hs
      exact absurd (walkStep_halt_error hs) (by simp)
    | goOn offset2 m2 =>
      rw [walkF_goOn_zero hs] at h
      exact Option.noConfusion h
  | succ n ih =>
    intro offset m h
    cases hs : walkStep env b offset m with
    | halt r =>
      rw [walkF_halt (n + 1) hs] at h
      have hr := Option.some.inj h
      rw [hr] at hs
      exact absurd (walkStep_halt_error hs) (by simp)
    | goOn offset2 m2 =>
      rw [walkF_goOn n hs] at h
      exact ih offset2 m2 h

theorem walkF_sound {env : Option Inflate} {b : List Nat} (fuel : Nat) :
    ∀ offset m r, walkF env b fuel offset m = some r →
      WalkRel env b offset m r := by
  induction fuel with
  | zero =>
    intro offset m r h
    cases hs : walkStep env b offset m with
    | halt r2 =>
      rw [walkF_halt 0 hs] at h
      exact (Option.some.inj h) ▸ WalkRel.halt offset m r2 hs
    | goOn offset2 m2 =>
      rw [walkF_goOn_zero hs] at h
      exact Option.noConfusion h
  | succ n ih =>
    intro offset m r h
    cases hs : walkStep env b offset m with
    | halt r2 =>
      rw [walkF_halt (n + 1) hs] at h
      exact (Option.some.inj h) ▸ WalkRel.halt offset m r2 hs
    | goOn offset2 m2 =>
      rw [walkF_goOn n hs] at h
      exact WalkRel.step offset m offset2 m2 r hs (ih offset2 m2 r h)

theorem WalkRel_det {env : Option Inflate} {b : List Nat} {offset : Nat}
    {m : Metadata} {r1 : Except PNGError Metadata}
    (h1 : WalkRel env b offset m r1) :
    ∀ r2, WalkRel env b offset m r2 → r1 = r2 := by
  induction h1 with
  | halt offset m r hs =>
    intro r2 h2
    cases h2 with
    | halt _ _ _ hs2 =>
      rw [hs] at hs2
      exact StepResult.halt.inj hs2
    | step _ _ o2 m2 _ hs2 _ =>
      rw [hs] at hs2
      exact StepResult.noConfusion hs2
  | step offset m o2 m2 r hs hrec ih =>
    intro r2 h2
    cases h2 with
    | halt _ _ _ hs2 =>
      rw [hs] at hs2
      exact StepResult.noConfusion hs2
    | step _ _ o2' m2' _ hs2 hrec2 =>
      rw [hs] at hs2
      obtain ⟨ho, hm⟩ := StepResult.goOn.inj hs2
      subst ho
      subst hm
      exact ih r2 hrec2

theorem walkStep_halt_suffix {env : Option Inflate} {b : List Nat}
    {offset : Nat} {m0 m : Metadata} (fuel : Nat)
    (hs : walkStep env b offset m0 = .halt (.ok m)) :
    ∃ suffix, m.rawChunks = m0.rawChunks ++ suffix ∧
      (∀ i (hi : i < suffix.length), (suffix.get ⟨i, hi⟩).type = "IEND" →
        i + 1 = suffix.length) ∧
      ((∃ cl, suffix.getLast? = some cl ∧ cl.type = "IEND") →
        ∀ ex, walkF env (b ++ ex) fuel offset m0 = some (.ok m)) := by
  rcases walkStep_halt_ok_inv hs with ⟨hc, rfl⟩ | ⟨hc, L, c, h1, h2, h3, h4⟩
  · refine ⟨[], by simp, ?_, ?_⟩
    · intro i hi
      simp at hi
    · rintro ⟨cl, hcl, _⟩ ex
      simp at hcl
  · have hraw := processChunk_rawChunks h4
    refine ⟨[RawChunk.mk "IEND" L offset], ?_, ?_, ?_⟩
    · rw [hraw]; rfl
    · intro i hi _
      simp only [List.length_cons, List.length_nil] at hi ⊢
      omega
    · rintro ⟨cl, hcl, hclt⟩ ex
      have hbL := getUint32E_ok_bounds h3
      have hcx : offset + 8 < (b ++ ex).length := by
        simp only [List.length_append]; omega
      have e1 : getUint32E (b ++ ex) offset = .ok L := by
        rw [getUint32E_append (by omega)]; exact h1
      have e2 : readStringE (b ++ ex) (offset + 4) 4 = .ok "IEND" := by
        rw [readStringE_append 4 (offset + 4) (by omega)]; exact h2
      have e3 : getUint32E (b ++ ex) (offset + 8 + L) = .ok c := by
        rw [getUint32E_append (by omega)]; exact h3
      have e5 : bufferSlice (b ++ ex) (offset + 8) (offset + 8 + L) =
          bufferSlice b (offset + 8) (offset + 8 + L) :=
        bufferSlice_append (by omega)
      have hstep := @walkStep_eq_of env (b ++ ex) offset L "IEND" c m0 m
        hcx e1 e2 e3 (by rw [e5]; exact h4)
      rw [if_pos rfl] at hstep
      rw [walkF_halt fuel hstep]

theorem walkF_raw_suffix {env : Option Inflate} {b : List Nat} (fuel : Nat) :
    ∀ offset m0 m, walkF env b fuel offset m0 = some (.ok m) →
      ∃ suffix, m.rawChunks = m0.rawChunks ++ suffix ∧
        (∀ i (hi : i < suffix.length), (suffix.get ⟨i, hi⟩).type = "IEND" →
          i + 1 = suffix.length) ∧
        ((∃ cl, suffix.getLast? = some cl ∧ cl.type = "IEND") →
          ∀ ex, walkF env (b ++ ex) fuel offset m0 = some (.ok m)) := by
  induction fuel with
  | zero =>
    intro offset m0 m h
    cases hs : walkStep env b offset m0 with
    | goOn o2 m2 =>
      rw [walkF_goOn_zero hs] at h
      exact Option.noConfusion h
    | halt r =>
      rw [walkF_halt 0 hs] at h
      have hr := Option.some.inj h
      rw [hr] at hs
      exact walkStep_halt_suffix 0 hs
  | succ n ih =>
    intro offset m0 m h
    cases hs : walkStep env b offset m0 with
    | halt r =>
      rw [walkF_halt (n + 1) hs] at h
      have hr := Option.some.inj h
      rw [hr] at hs
      exact walkStep_halt_suffix (n + 1) hs
    | goOn o2 m2 =>
      rw [walkF_goOn n hs] at h
      obtain ⟨suffix, hsuf, hiend, happ⟩ := ih o2 m2 m h
      obtain ⟨hc, L, t, h1, h2, ⟨c, h3⟩, h4, ht, ho⟩ := walkStep_goOn_inv hs
      have hraw := processChunk_rawChunks h4
      refine ⟨RawChunk.mk t L offset :: suffix, ?_, ?_, ?_⟩
      · rw [hsuf, hraw]
        show m0.rawChunks ++ [RawChunk.mk t L offset] ++ suffix = _
        rw [List.append_assoc]
        rfl
      · intro i hi hty
        cases i with
        | zero => exact absurd hty ht
        | succ j =>
          have hj : j < suffix.length := by
            simp only [List.length_cons] at hi
            omega
          have := hiend j hj hty
          simp only [List.length_cons]
          omega
      · rintro ⟨cl, hcl, hclt⟩ ex
        cases suffix with
        | nil =>
          rw [List.getLast?_singleton] at hcl
          have : cl = RawChunk.mk t L offset := by
            exact (Option.some.inj hcl).symm
          rw [this] at hclt
          exact absurd hclt ht
        | cons s0 srest =>
          rw [List.getLast?_cons_cons] at hcl
          have hrec := happ ⟨cl, hcl, hclt⟩ ex
          have hbL := getUint32E_ok_bounds h3
          have hcx : offset + 8 < (b ++ ex).length := by
            simp only [List.length_append]; omega
          have e1 : getUint32E (b ++ ex) offset = .ok L := by
            rw [getUint32E_append (by omega)]; exact h1
          have e2 : readStringE (b ++ ex) (offset + 4) 4 = .ok t := by
            rw [readStringE_append 4 (offset + 4) (by omega)]; exact h2
          have e3 : getUint32E (b ++ ex) (offset + 8 + L) = .ok c := by
            rw [getUint32E_append (by omega)]; exact h3
          have e5 : bufferSlice (b ++ ex) (offset + 8) (offset + 8 + L) =
              bufferSlice b (offset + 8) (offset + 8 + L) :=
            bufferSlice_append (by omega)
          have hstep := @walkStep_eq_of env (b ++ ex) offset L t c m0 m2
            hcx e1 e2 e3 (by rw [e5]; exact h4)
          rw [if_neg ht] at hstep
          rw [walkF_goOn n hstep, ← ho]
          exact hrec

/-! ### Lemmas connecting `parsePNGMetadata`, `walkF` and `DecodesRel` -/

theorem parse_walkF_total (env : Option Inflate) (buffer : List Nat) :
    ∃ r, walkF env buffer buffer.length 8 emptyMetadata = some r := by
  cases hw : walkF env buffer buffer.length 8 emptyMetadata with
  | none =>
    exact absurd hw
      (walkF_fuel_sufficient buffer.length 8 emptyMetadata (by omega))
  | some r => exact ⟨r, rfl⟩

theorem parse_of_sig_ok {env : Option Inflate} {buffer : List Nat}
    (hsig : checkSignature buffer = .ok ()) {r : Except PNGError Metadata}
    (h : walkF env buffer buffer.length 8 emptyMetadata = some r) :
    parsePNGMetadata env buffer = r := by
  unfold parsePNGMetadata
  simp only [hsig, h, Option.getD_some]

theorem parse_of_sig_error {env : Option Inflate} {buffer : List Nat}
    {e : PNGError} (hsig : checkSignature buffer = .error e) :
    parsePNGMetadata env buffer = .error e := by
  unfold parsePNGMetadata
  simp only [hsig]

theorem decode_sound (env : Option Inflate) (buffer : List Nat) :
    DecodesRel env buffer (parsePNGMetadata env buffer) := by
  cases hsig : checkSignature buffer with
  | error e =>
    rw [parse_of_sig_error hsig]
    exact DecodesRel.sigErr e hsig
  | ok u =>
    cases u
    obtain ⟨r, hw⟩ := parse_walkF_total env buffer
    rw [parse_of_sig_ok hsig hw]
    exact DecodesRel.walkDone r hsig (walkF_sound buffer.length 8 emptyMetadata r hw)

/-! ### Claim theorems -/

/-- Claim C1, counterexample: the empty buffer is shorter than 8 bytes,
so the claim says `decode` throws a `FormatError`; the code instead
throws the `RangeError` of `dataView.getUint8(0)`, because the explicit
`Invalid PNG file` error is only thrown after a byte is read and
mismatches. -/
theorem signature_short_buffer_counterexample :
    parsePNGMetadata none [] = .error .rangeError ∧
    parsePNGMetadata none [] ≠ .error .formatError := by
  refine ⟨rfl, fun h => ?_⟩
  rw [show parsePNGMetadata none [] = Except.error PNGError.rangeError from rfl] at h
  exact PNGError.noConfusion (Except.error.inj h)

/-- Claim C1 (amended): a buffer with a mismatching byte among its first
8 positions makes `decode` throw the `FormatError`; a buffer that is a
proper prefix of the signature (shorter than 8 bytes, all present bytes
matching) makes it throw a `RangeError` instead — in both cases no
metadata is produced; and when the first 8 bytes all match, `decode`
never throws a `FormatError`. -/
theorem signature_check_behavior (env : Option Inflate) (b : List Nat) :
    ((∃ i, i < 8 ∧ i < b.length ∧ b.getD i 0 ≠ pngSignature.getD i 0) →
      parsePNGMetadata env b = .error .formatError) ∧
    ((b.length < 8 ∧ ∀ i, i < b.length → b.getD i 0 = pngSignature.getD i 0) →
      parsePNGMetadata env b = .error .rangeError) ∧
    ((∀ i, i < 8 → b[i]? = some (pngSignature.getD i 0)) →
      parsePNGMetadata env b ≠ .error .formatError) := by
  refine ⟨?_, ?_, ?_⟩
  · rintro ⟨i, hi8, hilen, hne⟩
    exact parse_of_sig_error
      (checkSigLoop_format 8 0 ⟨i, hi8, by simpa using hilen, by simpa using hne⟩)
  · rintro ⟨hlen, hall⟩
    exact parse_of_sig_error
      (checkSigLoop_range 8 0 (by omega) (by omega)
        (fun j hj => by simpa using hall j (by omega)))
  · intro hall h
    have hsig : checkSignature b = .ok () :=
      checkSigLoop_ok 8 0 (fun j hj => by simpa using hall j hj)
    obtain ⟨r, hw⟩ := parse_walkF_total env b
    rw [parse_of_sig_ok hsig hw] at h
    rw [h] at hw
    exact walkF_ne_formatError b.length 8 emptyMetadata hw

/-- Witness for `signature_check_behavior`: eight zero bytes mismatch
the signature at position 0 and `decode` throws the `FormatError`. -/
theorem signature_check_behavior_witness :
    parsePNGMetadata none (List.replicate 8 0) = .error .formatError :=
  (signature_check_behavior none (List.replicate 8 0)).1
    ⟨0, by omega, by decide, by decide⟩

/-- Claim C2: the minimal valid stream (signature, `IHDR` with
width=100, height=50, bitDepth=8, colorType=2, compression=0, filter=0,
interlace=0, then an empty `IEND`) decodes to exactly that technical
info, the two raw chunks `IHDR` then `IEND`, and no text entries. -/
theorem minimal_stream_decodes :
    parsePNGMetadata none minimalBuf = .ok
      { textChunks := [],
        technicalInfo :=
          { width := some 100, height := some 50, bitDepth := some 8,
            colorType := some 2, compression := some 0, filter := some 0,
            interlace := some 0, physicalDimensions := none,
            lastModified := none },
        rawChunks := [RawChunk.mk "IHDR" 13 8, RawChunk.mk "IEND" 0 33] } := rfl

/-- Claim C3, counterexample: `truncatedBuf` passes the signature check
and is cut off mid-chunk (declared length 10, only 1 payload byte
present), yet `decode` does not return accumulated metadata — it throws
the `RangeError` of the CRC read `getUint32(offset + 8 + chunkLength)`. -/
theorem truncation_counterexample :
    parsePNGMetadata none truncatedBuf = .error .rangeError := rfl

/-- Claim C3 (amended): when the walk reaches a chunk whose declared
length extends the payload or trailing CRC past the end of the buffer,
the CRC read throws a `RangeError`, the walk stops and every piece of
accumulated metadata is discarded (the whole decode fails); only a
truncation that makes the loop condition itself fail (the chunk header
starting at or past `length - 8`) ends the walk with the metadata
accumulated so far.  The out-of-range payload slice itself is clamped
and is not what aborts the walk. -/
theorem truncation_throws (env : Option Inflate) (b : List Nat) :
    (∀ fuel offset m L, offset + 8 < b.length → getUint32E b offset = .ok L →
      b.length < offset + 12 + L →
      walkF env b fuel offset m = some (.error .rangeError)) ∧
    (∀ fuel offset m, ¬ offset + 8 < b.length →
      walkF env b fuel offset m = some (.ok m)) := by
  constructor
  · intro fuel offset m L hc hL htrunc
    obtain ⟨s, hs⟩ := readStringE_isOk (b := b) 4 (offset + 4) (by omega)
    have hcrc : getUint32E b (offset + 8 + L) = .error .rangeError :=
      getUint32E_oob (by omega)
    have hstep : walkStep env b offset m = .halt (.error .rangeError) := by
      unfold walkStep
      simp only [if_pos hc, hL, hs, hcrc]
    exact walkF_halt fuel hstep
  · intro fuel offset m hnc
    have hstep : walkStep env b offset m = .halt (.ok m) := by
      unfold walkStep
      simp only [if_neg hnc]
    exact walkF_halt fuel hstep

/-- Witness for `truncation_throws`: on `truncatedBuf` the walk at
offset 8 meets the chunk of declared length 10 and throws. -/
theorem truncation_throws_witness :
    walkF none truncatedBuf 17 8 emptyMetadata = some (.error .rangeError) :=
  (truncation_throws none truncatedBuf).1 17 8 emptyMetadata 10
    (by decide) (by rfl) (by decide)

/-- Claim C4: in any successful decode, a raw chunk of type `IEND` can
only be the last one recorded (no chunk after the first `IEND` is
recorded or processed), and when the recorded walk ended at an `IEND`
chunk, appending arbitrary extra bytes to the buffer changes nothing:
the decode of the extended buffer is identical, so the bytes after
`IEND` contribute to neither `rawChunks` nor `technicalInfo` nor
`textChunks`. -/
theorem iend_hard_stop (env : Option Inflate) (b ex : List Nat)
    (m : Metadata) (h : parsePNGMetadata env b = .ok m) :
    (∀ i (hi : i < m.rawChunks.length),
      (m.rawChunks.get ⟨i, hi⟩).type = "IEND" → i + 1 = m.rawChunks.length) ∧
    ((∃ cl, m.rawChunks.getLast? = some cl ∧ cl.type = "IEND") →
      parsePNGMetadata env (b ++ ex) = .ok m) := by
  cases hsig : checkSignature b with
  | error e =>
    rw [parse_of_sig_error hsig] at h
    exact absurd h (by simp)
  | ok u =>
    cases u
    obtain ⟨r, hw⟩ := parse_walkF_total env b
    rw [parse_of_sig_ok hsig hw] at h
    rw [h] at hw
    obtain ⟨suffix, hsuf, hiend, happ⟩ :=
      walkF_raw_suffix b.length 8 emptyMetadata m hw
    have hraw : m.rawChunks = suffix := by simpa [emptyMetadata] using hsuf
    rw [hraw]
    constructor
    · exact hiend
    · intro hlast
      have hwx := happ hlast ex
      have hwx2 : walkF env (b ++ ex) (b ++ ex).length 8 emptyMetadata =
          some (.ok m) := by
        apply walkF_mono b.length _ _ _ _ hwx
        simp [List.length_append]
      exact parse_of_sig_ok (checkSigLoop_append 8 0 hsig) hwx2

/-- Witness for `iend_hard_stop`: junk bytes appended after the `IEND`
of the minimal stream leave the decode result unchanged. -/
theorem iend_hard_stop_witness :
    parsePNGMetadata none (minimalBuf ++ [1, 2, 3]) = .ok minimalMeta :=
  (iend_hard_stop none minimalBuf [1, 2, 3] minimalMeta rfl).2
    ⟨RawChunk.mk "IEND" 0 33, rfl, rfl⟩

/-- Claim C9: the big-step semantics of `decode` is deterministic — for
one buffer (and one runtime decompression capability) there is exactly
one result, so decoding the same buffer twice yields structurally
identical metadata; the accumulator is created fresh per call and no
other state enters the relation. -/
theorem decode_deterministic (env : Option Inflate) (buffer : List Nat)
    (r1 r2 : Except PNGError Metadata)
    (h1 : DecodesRel env buffer r1) (h2 : DecodesRel env buffer r2) :
    r1 = r2 := by
  cases h1 with
  | sigErr e he =>
    cases h2 with
    | sigErr e2 he2 =>
      rw [he] at he2
      rw [Except.error.inj he2]
    | walkDone r hsig _ =>
      rw [he] at hsig
      exact Except.noConfusion hsig
  | walkDone r hsig hwalk =>
    cases h2 with
    | sigErr e he =>
      rw [he] at hsig
      exact Except.noConfusion hsig
    | walkDone r2 hsig2 hwalk2 =>
      exact WalkRel_det hwalk r2 hwalk2

/-- Witness for `decode_deterministic`: two derivations for
`textDemoBuf` (one from running the decoder, one transported along its
computed value) agree. -/
theorem decode_deterministic_witness :
    (Except.ok textDemoMeta : Except PNGError Metadata) =
      parsePNGMetadata none textDemoBuf :=
  decode_deterministic none textDemoBuf (.ok textDemoMeta)
    (parsePNGMetadata none textDemoBuf)
    ((show parsePNGMetadata none textDemoBuf = Except.ok textDemoMeta from rfl) ▸
      decode_sound none textDemoBuf)
    (decode_sound none textDemoBuf)

/-- Claim C10: the chunk walk terminates on every buffer — with
`buffer.length` fuel the fuelled walk never runs out (each continuing
iteration advances the cursor by `12 + chunkLength ≥ 12` while the loop
condition bounds the cursor by the buffer length), every continuing
iteration advances the cursor by at least 12, and `decode` returns
exactly the walk's (always-produced) result once the signature check
passes. -/
theorem walk_terminates (env : Option Inflate) (b : List Nat) :
    (∀ fuel offset m, b.length ≤ offset + 8 + 12 * fuel →
      walkF env b fuel offset m ≠ none) ∧
    (∀ offset2 m2 offset m, walkStep env b offset m = .goOn offset2 m2 →
      offset + 12 ≤ offset2) ∧
    (∃ r, walkF env b b.length 8 emptyMetadata = some r ∧
      (checkSignature b = .ok () → parsePNGMetadata env b = r)) := by
  refine ⟨fun fuel offset m h => walkF_fuel_sufficient fuel offset m h, ?_, ?_⟩
  · intro offset2 m2 offset m hs
    obtain ⟨_, L, t, _, _, _, _, _, ho⟩ := walkStep_goOn_inv hs
    omega
  · obtain ⟨r, hw⟩ := parse_walkF_total env b
    exact ⟨r, hw, fun hsig => parse_of_sig_ok hsig hw⟩

/-- Witness for `walk_terminates`: the minimal stream's walk never
exhausts its fuel. -/
theorem walk_terminates_witness :
    walkF none minimalBuf 45 8 emptyMetadata ≠ none :=
  (walk_terminates none minimalBuf).1 45 8 emptyMetadata (by decide)

/-! ### Lemmas about the text-chunk parsers -/

theorem drop_mid {v : Nat} (a c : List Nat) (k : Nat) :
    (a ++ v :: c).drop (a.length + 1 + k) = c.drop k := by
  rw [show a.length + 1 + k = a.length + (1 + k) by omega]
  rw [List.drop_append (1 + k)]
  rw [show 1 + k = k + 1 by omega]
  exact List.drop_succ_cons

theorem drop_two {x y : Nat} (l : List Nat) (k : Nat) :
    (x :: y :: l).drop (k + 2) = l.drop k := by
  rw [show k + 2 = (k + 1) + 1 by omega, List.drop_succ_cons,
    List.drop_succ_cons]

theorem firstZeroFrom_zero_split {a c : List Nat} (h : 0 ∉ a) :
    firstZeroFrom (a ++ 0 :: c) 0 = some a.length := by
  unfold firstZeroFrom
  rw [List.drop_zero, firstZeroAux_append c a 0 h, Nat.zero_add]

theorem firstZeroFrom_mid {D : List Nat} {start : Nat} {a c : List Nat}
    (hD : D.drop start = a ++ 0 :: c) (h : 0 ∉ a) :
    firstZeroFrom D start = some (start + a.length) := by
  unfold firstZeroFrom
  rw [hD, firstZeroAux_append c a start h]

theorem firstZeroFrom_none_of {D : List Nat} {start : Nat}
    (hD : 0 ∉ D.drop start) :
    firstZeroFrom D start = none := by
  unfold firstZeroFrom
  exact firstZeroAux_not_mem _ hD start

theorem bufferSlice_front {a c : List Nat} {v : Nat} :
    bufferSlice (a ++ v :: c) 0 a.length = a := by
  unfold bufferSlice
  rw [List.drop_zero, List.take_left]

theorem lookup_setText (l : List (String × String)) (k v : String) :
    lookupText (setText l k v) k = some v := by
  induction l with
  | nil => simp [setText, lookupText, List.find?]
  | cons p rest ih =>
    obtain ⟨k', v'⟩ := p
    unfold setText
    by_cases h : k' = k
    · rw [if_pos h]
      simp [lookupText, List.find?]
    · rw [if_neg h]
      unfold lookupText at ih ⊢
      simp only [List.find?]
      rw [show (decide ((k', v').1 = k)) = false by simp [h]]
      exact ih

theorem parseTextChunk_split {a c : List Nat} (h : 0 ∉ a) :
    parseTextChunk (a ++ 0 :: c) = some (latin1Decode a, latin1Decode c) := by
  unfold parseTextChunk
  rw [firstZeroFrom_zero_split h]
  have h2 : (a ++ 0 :: c).drop (a.length + 1) = c := by
    have := drop_mid (v := 0) a c 0
    rw [List.drop_zero] at this
    rw [show a.length + 1 = a.length + 1 + 0 by omega]
    exact this
  simp only [bufferSlice_front, h2]

theorem parseTextChunk_none {data : List Nat} (h : 0 ∉ data) :
    parseTextChunk data = none := by
  unfold parseTextChunk
  rw [firstZeroFrom_none_of (by rwa [List.drop_zero])]

theorem parseZTextChunk_keyword_index {kw : List Nat} {x : Nat}
    {rest : List Nat} :
    (kw ++ 0 :: x :: rest)[kw.length + 1]? = some x := by
  rw [List.getElem?_append_right (by omega)]
  simp

theorem parseZTextChunk_nonzero {env : Option Inflate} {kw : List Nat}
    {cm : Nat} {rest : List Nat} (hkw : 0 ∉ kw) (hcm : cm ≠ 0) :
    parseZTextChunk env (kw ++ 0 :: cm :: rest) = none := by
  unfold parseZTextChunk
  rw [firstZeroFrom_zero_split hkw]
  simp only [parseZTextChunk_keyword_index]
  cases cm with
  | zero => exact absurd rfl hcm
  | succ n => rfl

theorem parseZTextChunk_drop2 {kw rest : List Nat} :
    (kw ++ 0 :: 0 :: rest).drop (kw.length + 2) = rest := by
  have := drop_mid (v := 0) kw (0 :: rest) 1
  rw [show kw.length + 1 + 1 = kw.length + 2 by omega] at this
  rw [this]
  rfl

theorem parseZTextChunk_inflate {f : Inflate} {kw rest out : List Nat}
    (hkw : 0 ∉ kw) (hf : f rest = some out) :
    parseZTextChunk (some f) (kw ++ 0 :: 0 :: rest) =
      some (latin1Decode kw, latin1Decode out) := by
  unfold parseZTextChunk
  rw [firstZeroFrom_zero_split hkw]
  simp only [parseZTextChunk_keyword_index, bufferSlice_front,
    parseZTextChunk_drop2, hf]

theorem parseZTextChunk_fallback {kw rest : List Nat} (hkw : 0 ∉ kw) :
    parseZTextChunk none (kw ++ 0 :: 0 :: rest) =
      some (latin1Decode kw,
        "[Compressed data - decompression not supported]") := by
  unfold parseZTextChunk
  rw [firstZeroFrom_zero_split hkw]
  simp only [parseZTextChunk_keyword_index, bufferSlice_front]

theorem parseITextChunk_drop3 {kw : List Nat} {f mth : Nat} {X : List Nat}
    (k : Nat) :
    (kw ++ 0 :: f :: mth :: X).drop (kw.length + 3 + k) = X.drop k := by
  have h1 := drop_mid (v := 0) kw (f :: mth :: X) (k + 2)
  rw [show kw.length + 1 + (k + 2) = kw.length + 3 + k by omega] at h1
  rw [h1, drop_two]

theorem parseITextChunk_split {kw lang trans text : List Nat} {f mth : Nat}
    (hkw : 0 ∉ kw) (hlang : 0 ∉ lang) (htrans : 0 ∉ trans) :
    parseITextChunk (kw ++ 0 :: f :: mth :: (lang ++ 0 :: (trans ++ 0 :: text))) =
      some (latin1Decode kw, utf8Decode text) := by
  have d1 : (kw ++ 0 :: f :: mth :: (lang ++ 0 :: (trans ++ 0 :: text))).drop
      (kw.length + 3) = lang ++ 0 :: (trans ++ 0 :: text) := by
    have := @parseITextChunk_drop3 kw f mth
      (lang ++ 0 :: (trans ++ 0 :: text)) 0
    rw [Nat.add_zero, List.drop_zero] at this
    exact this
  have e1 : firstZeroFrom (kw ++ 0 :: f :: mth :: (lang ++ 0 :: (trans ++ 0 :: text)))
      0 = some kw.length := firstZeroFrom_zero_split hkw
  have e2 : firstZeroFrom (kw ++ 0 :: f :: mth :: (lang ++ 0 :: (trans ++ 0 :: text)))
      (kw.length + 3) = some (kw.length + 3 + lang.length) :=
    firstZeroFrom_mid d1 hlang
  have d2 : (kw ++ 0 :: f :: mth :: (lang ++ 0 :: (trans ++ 0 :: text))).drop
      (kw.length + 3 + lang.length + 1) = trans ++ 0 :: text := by
    have h1 := @parseITextChunk_drop3 kw f mth
      (lang ++ 0 :: (trans ++ 0 :: text)) (lang.length + 1)
    rw [show kw.length + 3 + (lang.length + 1) = kw.length + 3 + lang.length + 1
      by omega] at h1
    rw [h1]
    have h2 := drop_mid (v := 0) lang (trans ++ 0 :: text) 0
    rw [Nat.add_zero, List.drop_zero] at h2
    rw [show lang.length + 1 = lang.length + 1 + 0 by omega]
    rw [show lang.length + 1 + 0 + 0 = lang.length + 1 + 0 by omega] at h2
    exact h2
  have e3 : firstZeroFrom (kw ++ 0 :: f :: mth :: (lang ++ 0 :: (trans ++ 0 :: text)))
      (kw.length + 3 + lang.length + 1) =
      some (kw.length + 3 + lang.length + 1 + trans.length) :=
    firstZeroFrom_mid d2 htrans
  have d3 : (kw ++ 0 :: f :: mth :: (lang ++ 0 :: (trans ++ 0 :: text))).drop
      (kw.length + 3 + lang.length + 1 + trans.length + 1) = text := by
    have h1 := @parseITextChunk_drop3 kw f mth
      (lang ++ 0 :: (trans ++ 0 :: text))
      (lang.length + 1 + trans.length + 1)
    rw [show kw.length + 3 + (lang.length + 1 + trans.length + 1) =
      kw.length + 3 + lang.length + 1 + trans.length + 1 by omega] at h1
    rw [h1]
    have h2 := drop_mid (v := 0) lang (trans ++ 0 :: text) (trans.length + 1)
    rw [show lang.length + 1 + (trans.length + 1) =
      lang.length + 1 + trans.length + 1 by omega] at h2
    rw [h2]
    have h3 := drop_mid (v := 0) trans text 0
    rw [Nat.add_zero, List.drop_zero] at h3
    rw [show trans.length + 1 = trans.length + 1 + 0 by omega]
    exact h3
  unfold parseITextChunk
  simp only [e1, e2, e3, bufferSlice_front, d3]

theorem parseITextChunk_no_keyword {data : List Nat} (h : 0 ∉ data) :
    parseITextChunk data = none := by
  unfold parseITextChunk
  rw [firstZeroFrom_none_of (by rwa [List.drop_zero])]

theorem parseITextChunk_no_lang {kw rest : List Nat} (hkw : 0 ∉ kw)
    (hrest : 0 ∉ rest.drop 2) :
    parseITextChunk (kw ++ 0 :: rest) = none := by
  have d1 : (kw ++ 0 :: rest).drop (kw.length + 3) = rest.drop 2 := by
    have := drop_mid (v := 0) kw rest 2
    rw [show kw.length + 1 + 2 = kw.length + 3 by omega] at this
    exact this
  have e2 : firstZeroFrom (kw ++ 0 :: rest) (kw.length + 3) = none :=
    firstZeroFrom_none_of (by rwa [d1])
  unfold parseITextChunk
  simp only [firstZeroFrom_zero_split hkw, e2]

theorem parseITextChunk_no_trans {kw lang rest2 : List Nat} {f mth : Nat}
    (hkw : 0 ∉ kw) (hlang : 0 ∉ lang) (hrest2 : 0 ∉ rest2) :
    parseITextChunk (kw ++ 0 :: f :: mth :: (lang ++ 0 :: rest2)) = none := by
  have d1 : (kw ++ 0 :: f :: mth :: (lang ++ 0 :: rest2)).drop
      (kw.length + 3) = lang ++ 0 :: rest2 := by
    have := @parseITextChunk_drop3 kw f mth
      (lang ++ 0 :: rest2) 0
    rw [Nat.add_zero, List.drop_zero] at this
    exact this
  have d2 : (kw ++ 0 :: f :: mth :: (lang ++ 0 :: rest2)).drop
      (kw.length + 3 + lang.length + 1) = rest2 := by
    have h1 := @parseITextChunk_drop3 kw f mth
      (lang ++ 0 :: rest2) (lang.length + 1)
    rw [show kw.length + 3 + (lang.length + 1) =
      kw.length + 3 + lang.length + 1 by omega] at h1
    rw [h1]
    have h2 := drop_mid (v := 0) lang rest2 0
    rw [Nat.add_zero, List.drop_zero] at h2
    rw [show lang.length + 1 = lang.length + 1 + 0 by omega]
    exact h2
  have e3 : firstZeroFrom (kw ++ 0 :: f :: mth :: (lang ++ 0 :: rest2))
      (kw.length + 3 + lang.length + 1) = none :=
    firstZeroFrom_none_of (by rwa [d2])
  unfold parseITextChunk
  simp only [firstZeroFrom_zero_split hkw, firstZeroFrom_mid d1 hlang, e3]

/-- Claim C5: a `tEXt` payload that splits as `keyword ++ 0 ++ text`
with no zero byte in the keyword (so the zero is the first zero byte)
adds the entry mapping the Latin-1 keyword to the Latin-1 text, and the
entry is readable back; a payload without any zero byte adds nothing and
the walk continues (`processChunk` succeeds with the metadata
unchanged — the raw-chunk descriptor was already pushed before the
dispatch).  Concretely, `textDemoBuf` (an `Author\0Alice` chunk, a
zero-less `tEXt` chunk, then `IEND`) decodes to one text entry and three
raw chunks. -/
theorem text_chunk_rules :
    (∀ (env : Option Inflate) (a c : List Nat) (m : Metadata), 0 ∉ a →
      processChunk env "tEXt" (a ++ 0 :: c) m =
        .ok { m with
          textChunks := setText m.textChunks (latin1Decode a) (latin1Decode c) } ∧
      lookupText (setText m.textChunks (latin1Decode a) (latin1Decode c))
        (latin1Decode a) = some (latin1Decode c)) ∧
    (∀ (env : Option Inflate) (data : List Nat) (m : Metadata), 0 ∉ data →
      processChunk env "tEXt" data m = .ok m) ∧
    parsePNGMetadata none textDemoBuf = .ok textDemoMeta := by
  refine ⟨?_, ?_, rfl⟩
  · intro env a c m ha
    refine ⟨?_, lookup_setText _ _ _⟩
    rw [processChunk_tEXt]
    simp only [parseTextChunk_split ha]
  · intro env data m hd
    rw [processChunk_tEXt]
    simp only [parseTextChunk_none hd]

/-- Witness for `text_chunk_rules`: the payload `"Author\0Alice"` yields
the entry `textChunks["Author"] = "Alice"`. -/
theorem text_chunk_rules_witness :
    processChunk none "tEXt"
        ([65, 117, 116, 104, 111, 114] ++ 0 :: [65, 108, 105, 99, 101])
        emptyMetadata =
      .ok { emptyMetadata with textChunks := [("Author", "Alice")] } ∧
    lookupText [("Author", "Alice")] "Author" = some "Alice" :=
  text_chunk_rules.1 none [65, 117, 116, 104, 111, 114]
    [65, 108, 105, 99, 101] emptyMetadata (by decide)

/-- Claim C6: a `zTXt` payload `keyword ++ 0 ++ cm ++ compressed` with a
nonzero compression method adds nothing; with method 0 and a
decompression capability that succeeds on the compressed bytes, the
entry maps the Latin-1 keyword to the Latin-1 decoding of the
decompressed bytes; without any decompression capability in the runtime
the entry is the fixed placeholder string, and `processChunk` still
succeeds (not an error). -/
theorem ztxt_chunk_rules :
    (∀ (env : Option Inflate) (kw rest : List Nat) (cm : Nat) (m : Metadata),
      0 ∉ kw → cm ≠ 0 →
      processChunk env "zTXt" (kw ++ 0 :: cm :: rest) m = .ok m) ∧
    (∀ (f : Inflate) (kw rest out : List Nat) (m : Metadata), 0 ∉ kw →
      f rest = some out →
      processChunk (some f) "zTXt" (kw ++ 0 :: 0 :: rest) m =
        .ok { m with
          textChunks := setText m.textChunks (latin1Decode kw) (latin1Decode out) } ∧
      lookupText (setText m.textChunks (latin1Decode kw) (latin1Decode out))
        (latin1Decode kw) = some (latin1Decode out)) ∧
    (∀ (kw rest : List Nat) (m : Metadata), 0 ∉ kw →
      processChunk none "zTXt" (kw ++ 0 :: 0 :: rest) m =
        .ok { m with
          textChunks := setText m.textChunks (latin1Decode kw)
            "[Compressed data - decompression not supported]" } ∧
      lookupText (setText m.textChunks (latin1Decode kw)
          "[Compressed data - decompression not supported]")
        (latin1Decode kw) =
          some "[Compressed data - decompression not supported]") := by
  refine ⟨?_, ?_, ?_⟩
  · intro env kw rest cm m hkw hcm
    rw [processChunk_zTXt]
    simp only [parseZTextChunk_nonzero hkw hcm]
  · intro f kw rest out m hkw hf
    refine ⟨?_, lookup_setText _ _ _⟩
    rw [processChunk_zTXt]
    simp only [parseZTextChunk_inflate hkw hf]
  · intro kw rest m hkw
    refine ⟨?_, lookup_setText _ _ _⟩
    rw [processChunk_zTXt]
    simp only [parseZTextChunk_fallback hkw]

/-- Witness for `ztxt_chunk_rules`: with a decompressor that produces
the bytes of `"pq"`, the keyword `"Kw"` maps to `"pq"`. -/
theorem ztxt_chunk_rules_witness :
    processChunk (some (fun _ => some [112, 113])) "zTXt"
        ([75, 119] ++ 0 :: 0 :: [1, 2, 3]) emptyMetadata =
      .ok { emptyMetadata with textChunks := [("Kw", "pq")] } ∧
    lookupText [("Kw", "pq")] "Kw" = some "pq" :=
  ztxt_chunk_rules.2.1 (fun _ => some [112, 113]) [75, 119] [1, 2, 3]
    [112, 113] emptyMetadata (by decide) rfl

/-- Claim C7: an `iTXt` payload with its three null terminators
(`keyword ++ 0 ++ flag ++ method ++ languageTag ++ 0 ++
translatedKeyword ++ 0 ++ text`, keyword/tag/translated keyword
zero-free) adds the entry mapping the Latin-1 keyword to the UTF-8
decoding of the bytes after the third null, for every value of the
compression flag and method; a payload missing the first, second or
third null terminator adds nothing and only this chunk's decode is
aborted (`processChunk` still succeeds with the metadata unchanged). -/
theorem itxt_chunk_rules :
    (∀ (env : Option Inflate) (kw lang trans text : List Nat) (f mth : Nat)
      (m : Metadata), 0 ∉ kw → 0 ∉ lang → 0 ∉ trans →
      processChunk env "iTXt"
          (kw ++ 0 :: f :: mth :: (lang ++ 0 :: (trans ++ 0 :: text))) m =
        .ok { m with
          textChunks := setText m.textChunks (latin1Decode kw) (utf8Decode text) } ∧
      lookupText (setText m.textChunks (latin1Decode kw) (utf8Decode text))
        (latin1Decode kw) = some (utf8Decode text)) ∧
    (∀ (env : Option Inflate) (data : List Nat) (m : Metadata), 0 ∉ data →
      processChunk env "iTXt" data m = .ok m) ∧
    (∀ (env : Option Inflate) (kw rest : List Nat) (m : Metadata), 0 ∉ kw →
      0 ∉ rest.drop 2 →
      processChunk env "iTXt" (kw ++ 0 :: rest) m = .ok m) ∧
    (∀ (env : Option Inflate) (kw lang rest2 : List Nat) (f mth : Nat)
      (m : Metadata), 0 ∉ kw → 0 ∉ lang → 0 ∉ rest2 →
      processChunk env "iTXt"
        (kw ++ 0 :: f :: mth :: (lang ++ 0 :: rest2)) m = .ok m) := by
  refine ⟨?_, ?_, ?_, ?_⟩
  · intro env kw lang trans text f mth m hkw hlang htrans
    refine ⟨?_, lookup_setText _ _ _⟩
    rw [processChunk_iTXt]
    simp only [parseITextChunk_split hkw hlang htrans]
  · intro env data m hd
    rw [processChunk_iTXt]
    simp only [parseITextChunk_no_keyword hd]
  · intro env kw rest m hkw hrest
    rw [processChunk_iTXt]
    simp only [parseITextChunk_no_lang hkw hrest]
  · intro env kw lang rest2 f mth m hkw hlang hrest2
    rw [processChunk_iTXt]
    simp only [parseITextChunk_no_trans hkw hlang hrest2]

/-- Witness for `itxt_chunk_rules`: keyword `"Comment"`, empty language
tag and translated keyword, UTF-8 text `"素材"`, compression flag 1 and
method 0 (values that are read but not acted on). -/
theorem itxt_chunk_rules_witness :
    processChunk none "iTXt"
        ([67, 111, 109, 109, 101, 110, 116] ++ 0 :: 1 :: 0 ::
          ([] ++ 0 :: ([] ++ 0 :: [231, 180, 160, 230, 157, 144])))
        emptyMetadata =
      .ok { emptyMetadata with textChunks := [("Comment", "素材")] } ∧
    lookupText [("Comment", "素材")] "Comment" = some "素材" :=
  itxt_chunk_rules.1 none [67, 111, 109, 109, 101, 110, 116] [] []
    [231, 180, 160, 230, 157, 144] 1 0 emptyMetadata
    (by decide) (by decide) (by decide)

/-- Claim C8, counterexample: a `tIME` chunk with year 5 produces
`"5-01-02 03:04:06"` — the year is interpolated without padding, so the
result is not the zero-padded fixed-format `YYYY-MM-DD HH:MM:SS` string
`"0005-01-02 03:04:06"` the claim requires. -/
theorem time_format_counterexample :
    parsePNGMetadata none timeCexBuf = .ok
      { textChunks := [],
        technicalInfo := { lastModified := some "5-01-02 03:04:06" },
        rawChunks := [RawChunk.mk "tIME" 7 8, RawChunk.mk "IEND" 0 27] } ∧
    "5-01-02 03:04:06" ≠ "0005-01-02 03:04:06" :=
  ⟨rfl, by decide⟩

/-- Claim C8 (amended): for a `tIME` payload of at least 7 bytes,
`lastModified` is set to the string `Y-MM-DD HH:MM:SS` where month, day,
hour, minute and second are zero-padded to two digits but the year is
rendered in plain decimal with no padding (so the format is the claimed
`YYYY-MM-DD HH:MM:SS` only for four-digit years); a payload shorter
than 7 bytes leaves the metadata unchanged. -/
theorem time_chunk_rules :
    (∀ (env : Option Inflate) (data : List Nat) (m : Metadata),
      7 ≤ data.length →
      processChunk env "tIME" data m =
        .ok { m with technicalInfo := { m.technicalInfo with
          lastModified := some (
            toString (data.getD 0 0 * 256 + data.getD 1 0) ++ "-" ++
            padStart2 (toString (data.getD 2 0)) ++ "-" ++
            padStart2 (toString (data.getD 3 0)) ++ " " ++
            padStart2 (toString (data.getD 4 0)) ++ ":" ++
            padStart2 (toString (data.getD 5 0)) ++ ":" ++
            padStart2 (toString (data.getD 6 0))) } }) ∧
    (∀ (env : Option Inflate) (data : List Nat) (m : Metadata),
      data.length < 7 →
      processChunk env "tIME" data m = .ok m) := by
  constructor
  · intro env data m h
    rw [processChunk_tIME_long env m h]
    rfl
  · intro env data m h
    exact processChunk_tIME_short env m h

/-- Witness for `time_chunk_rules`: payload year 2023, month 4, day 5,
hour 6, minute 7, second 8 formats as `"2023-04-05 06:07:08"`. -/
theorem time_chunk_rules_witness :
    processChunk none "tIME" [7, 231, 4, 5, 6, 7, 8] emptyMetadata =
      .ok { emptyMetadata with technicalInfo :=
        { lastModified := some "2023-04-05 06:07:08" } } :=
  time_chunk_rules.1 none [7, 231, 4, 5, 6, 7, 8] emptyMetadata (by decide)
